import Mathlib

/-!
Verification development for the ResumeRank batch execution engine.

The definitions below are a shallow embedding of the server actions that
implement the engine (createBatch, processSingleResume, controlBatch,
watchdog) and of the retry wrapper in app/actions.ts.  Firestore documents
become Lean structures; each Firestore write site of the source becomes a
pure update function; the asynchronous system is modelled as a step
relation on a single-batch system state.  Granularity of the model:

* the claim transaction (runTransaction) is one atomic step, as in the
  source;
* each worker outcome handler (the getDoc / branch / updateDoc sequence
  after the analyzer returns, together with the batch counter increment)
  is one atomic step;
* the watchdog is split into a snapshot step (the getDocs query, which
  captures status, startTime and retryCount of the expired running items)
  and one write step per captured item, because in the source the writes
  happen after the query with suspension points in between, and the write
  branches on the snapshot data while increment(1) applies to the live
  document;
* timestamps are natural numbers; a tick step advances the clock.

Item records additionally carry a ghost field (attempts) counting how
often the item was claimed; no source behaviour depends on it.

MAX_RETRIES and RUN_TIMEOUT_SEC are module constants (3 and 90) in the
source; the model takes them as parameters MR and L and instantiates
MR = 3 where a claim is about the shipped configuration.
-/

namespace ResumeRank

/-- Batch status, from lib/types.ts (BatchStatus). -/
inductive BStatus
  | running
  | paused
  | cancelled
  | complete
deriving DecidableEq, Inhabited

/-- Item (resume) status.  The source type ResumeV2Status also lists
paused, timeout and skipped_duplicate, but no write site of the engine
ever stores those values on an item, so the model omits them. -/
inductive IStatus
  | pending
  | running
  | complete
  | failed
  | cancelled
deriving DecidableEq, Inhabited

/-- Error codes the engine writes into Item.error.code. -/
inductive ECode
  | rateLimited429
  | server5xx
  | transientError
  | permanentFailure
  | timeout
  | timeoutFinal
deriving DecidableEq

/-- Classification of the thrown message text used by the worker error
handler: the source tests e.message.includes for the substrings 429 and
5xx only to pick the error code label. -/
inductive MsgKind
  | has429
  | has5xx
  | other
deriving DecidableEq

/-- One resume document, from lib/types.ts (ResumeV2).  The result object
is abstracted to a presence flag.  attempts is a ghost counter of claims. -/
structure ItemR where
  fileHash : Nat
  status : IStatus
  workerId : Option Nat
  startTime : Option Nat
  lastUpdatedAt : Nat
  retryCount : Nat
  maxRetries : Nat
  hasResult : Bool
  error : Option ECode
  attempts : Nat
deriving DecidableEq, Inhabited

/-- One batch document, from lib/types.ts (Batch). -/
structure BatchR where
  status : BStatus
  total : Nat
  completed : Nat
  failed : Nat
  cancelledCount : Nat
  skippedDuplicates : Nat
deriving DecidableEq, Inhabited

/-- Whole-system state for one batch: the batch document (none when the
batch does not exist), its resume documents, a clock, the set of in-flight
analyzer calls (workerId, item index), and the pending watchdog writes
(item index, snapshot retryCount, snapshot startTime). -/
structure SysState where
  batch : Option BatchR
  items : List ItemR
  now : Nat
  attemptsOut : List (Nat × Nat)
  wdQueue : List (Nat × Nat × Nat)
deriving DecidableEq, Inhabited

/-- Error code chosen by the worker error handler from the message text
(processSingleResume, part_009 lines 187-189). -/
def msgKindCode : MsgKind → ECode
  | .has429 => .rateLimited429
  | .has5xx => .server5xx
  | .other => .transientError

/-- The claim write inside the transaction (processSingleResume lines
144-149): status running, workerId and startTime set, lastUpdatedAt
bumped.  The ghost attempts counter is incremented. -/
def claimWriteItem (wid now : Nat) (it : ItemR) : ItemR :=
  { it with status := .running, workerId := some wid, startTime := some now,
            lastUpdatedAt := now, attempts := it.attempts + 1 }

/-- The success write (processSingleResume lines 166-175): status
complete, result stored, error cleared.  The source does not touch
workerId or startTime here, so they keep their previous values. -/
def successWriteItem (now : Nat) (it : ItemR) : ItemR :=
  { it with status := .complete, hasResult := true, error := none,
            lastUpdatedAt := now }

/-- The transient requeue write (processSingleResume lines 194-201, also
the watchdog requeue at lines 310-317): back to pending, retryCount
incremented on the live document, workerId and startTime cleared. -/
def requeueWriteItem (now : Nat) (code : ECode) (it : ItemR) : ItemR :=
  { it with status := .pending, retryCount := it.retryCount + 1,
            workerId := none, startTime := none, lastUpdatedAt := now,
            error := some code }

/-- The worker max-retries failure write (processSingleResume lines
204-210): status failed, workerId and startTime cleared. -/
def failWriteItem (now : Nat) (code : ECode) (it : ItemR) : ItemR :=
  { it with status := .failed, workerId := none, startTime := none,
            lastUpdatedAt := now, error := some code }

/-- The watchdog failure write (watchdog lines 320-324): status failed and
error recorded, but the source does not clear workerId or startTime in
this update. -/
def wdFailWriteItem (now : Nat) (it : ItemR) : ItemR :=
  { it with status := .failed, lastUpdatedAt := now,
            error := some .timeoutFinal }

/-- The worker error handler (processSingleResume lines 182-216), taken as
one atomic read-branch-write: if the current retryCount is below
MAX_RETRIES the item is requeued, otherwise it is failed and the batch
failed counter is incremented.  Every thrown error takes this path; the
message text only selects the error code label. -/
def workerErrorHandler (MR now : Nat) (k : MsgKind) (it : ItemR) (b : BatchR) :
    ItemR × BatchR :=
  if it.retryCount < MR then
    (requeueWriteItem now (msgKindCode k) it, b)
  else
    (failWriteItem now .permanentFailure it, { b with failed := b.failed + 1 })

/-- One watchdog write (watchdog lines 309-327): the branch tests the
retryCount captured by the query snapshot, while the requeue increments
the live retryCount via increment(1). -/
def wdWriteStep (MR now rcSnap : Nat) (it : ItemR) (b : BatchR) :
    ItemR × BatchR :=
  if rcSnap < MR then
    (requeueWriteItem now .timeout it, b)
  else
    (wdFailWriteItem now it, { b with failed := b.failed + 1 })

/-- The completion recheck at the end of processSingleResume (lines
226-237): if the batch is running and the four counters reach total, the
status is set to complete. -/
def checkCompletion (b : BatchR) : BatchR :=
  if b.status = .running ∧
      b.total ≤ b.completed + b.failed + b.cancelledCount + b.skippedDuplicates
  then { b with status := .complete }
  else b

/-- Sum of the four batch counters, as read by the completion recheck. -/
def sumOf (b : BatchR) : Nat :=
  b.completed + b.failed + b.cancelledCount + b.skippedDuplicates

/-- The cancellation sweep write (controlBatch lines 273-276): the update
stores only the status field. -/
def cancelItem (it : ItemR) : ItemR :=
  if it.status = .pending then { it with status := .cancelled } else it

/-- Number of items with the given status. -/
def countStatus (st : IStatus) (items : List ItemR) : Nat :=
  items.countP (fun it => decide (it.status = st))

/-- Batch control action. -/
inductive CAction
  | pause
  | resume
  | cancel
deriving DecidableEq

/-- controlBatch (part_009 lines 240-285) on an existing, authorized
batch.  Disallowed action and status combinations return from the
transaction callback before any write, which the model renders as the
identity.  The cancel sweep queries items whose status is pending or
paused; no item ever has status paused, so it sweeps the pending items. -/
def controlBatch (a : CAction) (b : BatchR) (items : List ItemR) :
    BatchR × List ItemR :=
  match a with
  | .pause =>
      if b.status = .running then ({ b with status := .paused }, items)
      else (b, items)
  | .resume =>
      if b.status = .paused then ({ b with status := .running }, items)
      else (b, items)
  | .cancel =>
      if b.status = .running ∨ b.status = .paused then
        ({ b with status := .cancelled,
                  cancelledCount := b.cancelledCount + countStatus .pending items },
         items.map cancelItem)
      else (b, items)

/-- A fresh item record as written by createBatch (lines 84-101). -/
def mkItem (MR h : Nat) : ItemR :=
  { fileHash := h, status := .pending, workerId := none, startTime := none,
    lastUpdatedAt := 0, retryCount := 0, maxRetries := MR,
    hasResult := false, error := none, attempts := 0 }

/-- The createBatch file loop (lines 69-102): files are identified by
their content hash; a hash already seen is counted as a skipped duplicate
and produces no item record. -/
def buildItems (MR : Nat) : List Nat → List Nat → List ItemR × Nat
  | [], _ => ([], 0)
  | h :: t, seen =>
      if h ∈ seen then
        let p := buildItems MR t seen
        (p.1, p.2 + 1)
      else
        let p := buildItems MR t (h :: seen)
        (mkItem MR h :: p.1, p.2)

/-- createBatch (part_009 lines 38-112): the batch record stores
total = files.length before the loop runs, and skippedDuplicates is
patched to the number of duplicate files found by the loop. -/
def createBatch (MR : Nat) (hashes : List Nat) : SysState :=
  let p := buildItems MR hashes []
  { batch := some { status := .running, total := hashes.length,
                    completed := 0, failed := 0, cancelledCount := 0,
                    skippedDuplicates := p.2 },
    items := p.1, now := 0, attemptsOut := [], wdQueue := [] }

/-- Status of the item at an index. -/
def statusAt (items : List ItemR) (i : Nat) : Option IStatus :=
  (items.get? i).map (fun it => it.status)

/-- FIFO key of the item at an index (orderBy lastUpdatedAt). -/
def keyAt (items : List ItemR) (i : Nat) : Nat :=
  ((items.get? i).map (fun it => it.lastUpdatedAt)).getD 0

/-- Indices of the pending items. -/
def pendingIdxs (items : List ItemR) : List Nat :=
  (List.range items.length).filter
    (fun i => decide (statusAt items i = some IStatus.pending))

/-- The claim query (processSingleResume lines 127-140): the pending item
with the least lastUpdatedAt, first document on ties. -/
def oldestPendingIdx (items : List ItemR) : Option Nat :=
  (pendingIdxs items).argmin (keyAt items)

/-- Predicate of the watchdog query (watchdog lines 295-299): status
running and startTime older than the lease cutoff. -/
def wdExpired (L now : Nat) (it : ItemR) : Bool :=
  decide (it.status = IStatus.running) &&
    (match it.startTime with
     | some t => decide (t + L < now)
     | none => false)

/-- The snapshot taken by the watchdog query: index, retryCount and
startTime of every expired running item. -/
def wdSnapshotEntries (L now : Nat) (items : List ItemR) :
    List (Nat × Nat × Nat) :=
  (List.range items.length).filterMap (fun i =>
    match items.get? i with
    | some it =>
        if wdExpired L now it then
          match it.startTime with
          | some t => some (i, it.retryCount, t)
          | none => none
        else none
    | none => none)

/-- One atomic step of the system. -/
inductive Step
  | tick (n : Nat)
  | claim (wid : Nat)
  | deliverOk (wid idx : Nat)
  | deliverErr (wid idx : Nat) (k : MsgKind)
  | wdSnap
  | wdWrite
  | checkDone
  | control (a : CAction)
deriving DecidableEq

/-- Small-step semantics.  none means the step cannot fire in this state
(its source-side precondition fails). -/
def applyStep (MR L : Nat) : Step → SysState → Option SysState
  | .tick n, s => some { s with now := s.now + n + 1 }
  | .claim wid, s =>
      match s.batch with
      | some b =>
          if b.status = .running then
            match oldestPendingIdx s.items with
            | some i =>
                match s.items.get? i with
                | some it =>
                    some { s with
                      items := s.items.set i (claimWriteItem wid s.now it),
                      attemptsOut := (wid, i) :: s.attemptsOut }
                | none => none
            | none => none
          else none
      | none => none
  | .deliverOk wid idx, s =>
      if (wid, idx) ∈ s.attemptsOut then
        match s.batch, s.items.get? idx with
        | some b, some it =>
            some { s with
              items := s.items.set idx (successWriteItem s.now it),
              batch := some { b with completed := b.completed + 1 },
              attemptsOut := s.attemptsOut.erase (wid, idx) }
        | _, _ => none
      else none
  | .deliverErr wid idx k, s =>
      if (wid, idx) ∈ s.attemptsOut then
        match s.batch, s.items.get? idx with
        | some b, some it =>
            let p := workerErrorHandler MR s.now k it b
            some { s with
              items := s.items.set idx p.1,
              batch := some p.2,
              attemptsOut := s.attemptsOut.erase (wid, idx) }
        | _, _ => none
      else none
  | .wdSnap, s =>
      some { s with wdQueue := s.wdQueue ++ wdSnapshotEntries L s.now s.items }
  | .wdWrite, s =>
      match s.wdQueue with
      | [] => none
      | (idx, rcSnap, _) :: rest =>
          match s.batch, s.items.get? idx with
          | some b, some it =>
              let p := wdWriteStep MR s.now rcSnap it b
              some { s with
                items := s.items.set idx p.1,
                batch := some p.2,
                wdQueue := rest }
          | _, _ => none
  | .checkDone, s =>
      match s.batch with
      | some b => some { s with batch := some (checkCompletion b) }
      | none => none
  | .control a, s =>
      match s.batch with
      | some b =>
          let p := controlBatch a b s.items
          some { s with batch := some p.1, items := p.2 }
      | none => none

/-- Run a list of steps. -/
def runSteps (MR L : Nat) : List Step → SysState → Option SysState
  | [], s => some s
  | st :: rest, s =>
      match applyStep MR L st s with
      | some s1 => runSteps MR L rest s1
      | none => none

/-- The write discipline the specification prescribes but the source does
not enforce: a worker outcome write lands only while its claim is still
current, and a watchdog write lands only on an item that is still running
and unchanged since the snapshot. -/
def disciplined (st : Step) (s : SysState) : Bool :=
  match st with
  | .deliverOk wid idx =>
      match s.items.get? idx with
      | some it =>
          decide (it.status = IStatus.running) && decide (it.workerId = some wid)
      | none => false
  | .deliverErr wid idx _ =>
      match s.items.get? idx with
      | some it =>
          decide (it.status = IStatus.running) && decide (it.workerId = some wid)
      | none => false
  | .wdWrite =>
      match s.wdQueue with
      | (idx, rcSnap, stSnap) :: _ =>
          match s.items.get? idx with
          | some it =>
              decide (it.status = IStatus.running) &&
                decide (it.startTime = some stSnap) &&
                decide (it.retryCount = rcSnap)
          | none => false
      | [] => false
  | _ => true

/-- Run a list of steps, all of them disciplined. -/
def runStepsD (MR L : Nat) : List Step → SysState → Option SysState
  | [], s => some s
  | st :: rest, s =>
      if disciplined st s then
        match applyStep MR L st s with
        | some s1 => runStepsD MR L rest s1
        | none => none
      else none

/-- Analyzer outcome seen by one worker invocation. -/
inductive Outcome
  | ok
  | err (k : MsgKind)
deriving DecidableEq

/-- Sequential embedding of one full processSingleResume invocation
(part_009 lines 114-238) with the analyzer outcome as a parameter: the
claim transaction (early return when the batch is missing or not
running, or no pending resume exists), then the outcome handler for the
claimed resume, then the final completion recheck (which also returns
early when the batch document is missing).  The self re-invocation at
line 235 schedules another invocation and writes nothing, so it is not
part of the state effect. -/
def processOnce (MR : Nat) (o : Outcome) (s : SysState) : SysState :=
  let claimed : Option Nat :=
    match s.batch with
    | none => none
    | some b =>
        if b.status = BStatus.running then oldestPendingIdx s.items else none
  let s1 : SysState :=
    match claimed with
    | none => s
    | some i =>
        match s.items.get? i with
        | none => s
        | some it =>
            { s with items := s.items.set i (claimWriteItem 0 s.now it) }
  let s2 : SysState :=
    match claimed with
    | none => s1
    | some i =>
        match s1.items.get? i, s1.batch with
        | some it, some b =>
            match o with
            | .ok =>
                { s1 with
                  items := s1.items.set i (successWriteItem s1.now it),
                  batch := some { b with completed := b.completed + 1 } }
            | .err k =>
                let p := workerErrorHandler MR s1.now k it b
                { s1 with items := s1.items.set i p.1, batch := some p.2 }
        | _, _ => s1
  match s2.batch with
  | none => s2
  | some b => { s2 with batch := some (checkCompletion b) }

/-- Substring test on character lists: does the pattern occur
contiguously in the text. -/
def hasPre : List Char → List Char → Bool
  | [], _ => true
  | _ :: _, [] => false
  | a :: as, b :: bs => a == b && hasPre as bs

/-- Contiguous substring occurrence, mirroring String.prototype.includes. -/
def hasSubstr : List Char → List Char → Bool
  | pat, [] => pat.isEmpty
  | pat, c :: rest => hasPre pat (c :: rest) || hasSubstr pat rest

/-- The retryability test of the retry wrapper (app/actions.ts lines
203-205): the message contains 429 or 503. -/
def isRetryableMsg (m : String) : Bool :=
  hasSubstr "429".toList m.toList || hasSubstr "503".toList m.toList

/-- The retry loop of app/actions.ts lines 198-217.  fn gives the outcome
of attempt i; the result pairs the final outcome with the list of delays
slept between attempts.  remaining counts loop iterations left (5 at
entry), i is the loop index, last is the saved lastError.  A retryable
error sleeps 2000 * 2 ^ i before the next attempt unless i is the final
index; a non-retryable error is rethrown at once; when the iterations are
exhausted the saved last error is thrown. -/
def retryFrom {α : Type} (fn : Nat → Except String α) :
    Nat → Nat → String → Except String α × List Nat
  | 0, _, last => (Except.error last, [])
  | remaining + 1, i, _ =>
      match fn i with
      | Except.ok a => (Except.ok a, [])
      | Except.error e =>
          if isRetryableMsg e then
            if i < 4 then
              let p := retryFrom fn remaining (i + 1) e
              (p.1, 2000 * 2 ^ i :: p.2)
            else
              retryFrom fn remaining (i + 1) e
          else (Except.error e, [])

/-- The retry wrapper entry point: five iterations starting at index 0. -/
def retryRun {α : Type} (fn : Nat → Except String α) :
    Except String α × List Nat :=
  retryFrom fn 5 0 ""

/-- Status of the batch document, when it exists. -/
def batchStatus (s : SysState) : Option BStatus :=
  s.batch.map (fun b => b.status)

/-- Action and status pairs from which the specification says a control
action is not allowed: pause from anything but running, resume from
anything but paused, cancel from complete or cancelled. -/
def controlDisallowed (a : CAction) (st : BStatus) : Prop :=
  match a with
  | .pause => st ≠ BStatus.running
  | .resume => st ≠ BStatus.paused
  | .cancel => st = BStatus.complete ∨ st = BStatus.cancelled

/-- Accounting invariant tying the batch counters to the item statuses:
each counter equals the number of items in the matching terminal state,
total equals the number of item records plus the duplicates skipped at
creation, and a complete batch has no pending or running item. -/
def CounterInv (s : SysState) : Prop :=
  ∀ b, s.batch = some b →
    b.completed = countStatus .complete s.items ∧
    b.failed = countStatus .failed s.items ∧
    b.cancelledCount = countStatus .cancelled s.items ∧
    b.total = s.items.length + b.skippedDuplicates ∧
    (b.status = .complete →
      countStatus .pending s.items = 0 ∧ countStatus .running s.items = 0)

/-- Lease well-formedness: a running item carries a worker id and a start
time. -/
def WFInv (s : SysState) : Prop :=
  ∀ it ∈ s.items, it.status = IStatus.running →
    it.workerId ≠ none ∧ it.startTime ≠ none

section ListLemmas

variable {α : Type}

lemma get_set_self : ∀ (l : List α) (i : Nat) (a b : α),
    l.get? i = some b → (l.set i a).get? i = some a
  | [], i, _, _, h => by simp [List.get?] at h
  | _ :: _, 0, _, _, _ => rfl
  | x :: xs, i + 1, a, b, h => get_set_self xs i a b h

lemma get_set_other : ∀ (l : List α) (i j : Nat) (a : α), i ≠ j →
    (l.set i a).get? j = l.get? j
  | [], _, _, _, _ => by simp
  | x :: xs, 0, 0, a, hne => absurd rfl hne
  | x :: xs, 0, j + 1, a, _ => rfl
  | x :: xs, i + 1, 0, a, _ => rfl
  | x :: xs, i + 1, j + 1, a, hne =>
      get_set_other xs i j a (fun hij => hne (by rw [hij]))

lemma mem_of_get : ∀ (l : List α) (i : Nat) (a : α), l.get? i = some a → a ∈ l
  | [], i, _, h => by simp [List.get?] at h
  | x :: xs, 0, a, h => by
      simp [List.get?] at h
      simp [h]
  | x :: xs, i + 1, a, h =>
      List.mem_cons_of_mem x (mem_of_get xs i a h)

lemma mem_of_mem_set : ∀ (l : List α) (i : Nat) (a b : α),
    b ∈ l.set i a → b ∈ l ∨ b = a
  | [], _, _, _, h => by simp at h
  | x :: xs, 0, a, b, h => by
      rcases List.mem_cons.mp h with h1 | h1
      · exact Or.inr h1
      · exact Or.inl (List.mem_cons_of_mem x h1)
  | x :: xs, i + 1, a, b, h => by
      rcases List.mem_cons.mp h with h1 | h1
      · exact Or.inl (h1 ▸ List.mem_cons_self x xs)
      · rcases mem_of_mem_set xs i a b h1 with h2 | h2
        · exact Or.inl (List.mem_cons_of_mem x h2)
        · exact Or.inr h2

lemma countP_set (p : α → Bool) : ∀ (l : List α) (i : Nat) (a b : α),
    l.get? i = some b →
    (l.set i a).countP p + (if p b then 1 else 0) =
      l.countP p + (if p a then 1 else 0)
  | [], i, _, _, h => by simp [List.get?] at h
  | x :: xs, 0, a, b, h => by
      have hxb : x = b := by simpa [List.get?] using h
      subst hxb
      simp only [List.set, List.countP_cons]
      by_cases hpa : p a <;> by_cases hpx : p x <;> simp [hpa, hpx]
  | x :: xs, i + 1, a, b, h => by
      have ih := countP_set p xs i a b h
      simp only [List.set, List.countP_cons]
      by_cases hpx : p x <;> simp [hpx] <;> omega

lemma countP_pos_of_mem (p : α → Bool) :
    ∀ (l : List α) (a : α), a ∈ l → p a = true → 0 < l.countP p
  | [], a, ha, _ => by simp at ha
  | x :: xs, a, ha, hpa => by
      rcases List.mem_cons.mp ha with h1 | h1
      · subst h1
        simp [List.countP_cons, hpa]
      · have := countP_pos_of_mem p xs a h1 hpa
        simp only [List.countP_cons]
        split <;> omega

end ListLemmas

lemma countStatus_partition : ∀ (items : List ItemR),
    countStatus .pending items + countStatus .running items +
      countStatus .complete items + countStatus .failed items +
      countStatus .cancelled items = items.length
  | [] => rfl
  | it :: rest => by
      have ih := countStatus_partition rest
      cases h : it.status <;>
        simp only [countStatus, List.countP_cons, h, List.length_cons] at * <;>
        simp_all <;> omega

lemma countStatus_cancelMap : ∀ (items : List ItemR),
    countStatus .cancelled (items.map cancelItem) =
        countStatus .cancelled items + countStatus .pending items ∧
    countStatus .pending (items.map cancelItem) = 0 ∧
    countStatus .complete (items.map cancelItem) = countStatus .complete items ∧
    countStatus .failed (items.map cancelItem) = countStatus .failed items ∧
    countStatus .running (items.map cancelItem) = countStatus .running items
  | [] => by simp [countStatus]
  | it :: rest => by
      have ih := countStatus_cancelMap rest
      cases h : it.status <;>
        simp only [List.map_cons, countStatus, List.countP_cons, cancelItem, h] <;>
        simp_all [countStatus] <;> omega

lemma oldestPending_pending {items : List ItemR} {i : Nat}
    (h : oldestPendingIdx items = some i) :
    ∃ it, items.get? i = some it ∧ it.status = IStatus.pending := by
  have hmem : i ∈ pendingIdxs items := List.argmin_mem h
  have hf := List.mem_filter.mp hmem
  have hst : statusAt items i = some IStatus.pending := of_decide_eq_true hf.2
  unfold statusAt at hst
  cases hget : items.get? i with
  | none => rw [hget] at hst; simp at hst
  | some it =>
      rw [hget] at hst
      simp at hst
      exact ⟨it, rfl, hst⟩

lemma wdSnapshotEntries_mem {L now : Nat} {items : List ItemR}
    {i rc st0 : Nat} (h : (i, rc, st0) ∈ wdSnapshotEntries L now items) :
    ∃ it, items.get? i = some it ∧ it.status = IStatus.running ∧
      it.startTime = some st0 ∧ it.retryCount = rc ∧ st0 + L < now := by
  unfold wdSnapshotEntries at h
  rcases List.mem_filterMap.mp h with ⟨j, _, hj⟩
  split at hj
  next it hget =>
    split at hj
    next hexp =>
      split at hj
      next t hst =>
        simp only [Option.some.injEq, Prod.mk.injEq] at hj
        obtain ⟨hji, hrc, hstt⟩ := hj
        subst hji
        unfold wdExpired at hexp
        rw [hst] at hexp
        simp only [Bool.and_eq_true, decide_eq_true_eq] at hexp
        exact ⟨it, hget, hexp.1, by rw [hst, hstt], hrc,
          hstt ▸ hexp.2⟩
      next => simp at hj
    next => simp at hj
  next => simp at hj

lemma wdSnapshotEntries_nil {L now : Nat} {items : List ItemR}
    (h : ∀ it ∈ items, wdExpired L now it = false) :
    wdSnapshotEntries L now items = [] := by
  unfold wdSnapshotEntries
  rw [List.filterMap_eq_nil_iff]
  intro i _
  cases hget : items.get? i with
  | none => rfl
  | some it =>
      have := h it (mem_of_get items i it hget)
      simp [this]

/-- Invariant preservation lifted along runSteps. -/
lemma runSteps_inv (MR L : Nat) (P : SysState → Prop)
    (hstep : ∀ st s s1, applyStep MR L st s = some s1 → P s → P s1) :
    ∀ (t : List Step) (s s1 : SysState),
      runSteps MR L t s = some s1 → P s → P s1
  | [], s, s1, h, hp => by
      simp only [runSteps, Option.some.injEq] at h
      exact h ▸ hp
  | st :: rest, s, s1, h, hp => by
      simp only [runSteps] at h
      cases happ : applyStep MR L st s with
      | none => rw [happ] at h; exact absurd h (by simp)
      | some s2 =>
          rw [happ] at h
          exact runSteps_inv MR L P hstep rest s2 s1 h (hstep st s s2 happ hp)

/-- Invariant preservation lifted along runStepsD. -/
lemma runStepsD_inv (MR L : Nat) (P : SysState → Prop)
    (hstep : ∀ st s s1, disciplined st s = true →
      applyStep MR L st s = some s1 → P s → P s1) :
    ∀ (t : List Step) (s s1 : SysState),
      runStepsD MR L t s = some s1 → P s → P s1
  | [], s, s1, h, hp => by
      simp only [runStepsD, Option.some.injEq] at h
      exact h ▸ hp
  | st :: rest, s, s1, h, hp => by
      simp only [runStepsD] at h
      by_cases hd : disciplined st s
      · rw [if_pos hd] at h
        cases happ : applyStep MR L st s with
        | none => rw [happ] at h; exact absurd h (by simp)
        | some s2 =>
            rw [happ] at h
            exact runStepsD_inv MR L P hstep rest s2 s1 h
              (hstep st s s2 hd happ hp)
      · rw [if_neg hd] at h; exact absurd h (by simp)

section Inversion

variable {MR L : Nat} {s s1 : SysState}

lemma applyStep_tick {n : Nat} (h : applyStep MR L (.tick n) s = some s1) :
    s1 = { s with now := s.now + n + 1 } := by
  simp only [applyStep, Option.some.injEq] at h
  exact h.symm

lemma applyStep_claim {wid : Nat}
    (h : applyStep MR L (.claim wid) s = some s1) :
    ∃ b i it, s.batch = some b ∧ b.status = .running ∧
      oldestPendingIdx s.items = some i ∧ s.items.get? i = some it ∧
      s1 = { s with items := s.items.set i (claimWriteItem wid s.now it),
                    attemptsOut := (wid, i) :: s.attemptsOut } := by
  simp only [applyStep] at h
  split at h
  next b hb =>
    split at h
    next hst =>
      split at h
      next i hoi =>
        split at h
        next it hit =>
          exact ⟨b, i, it, hb, hst, hoi, hit, (Option.some.inj h).symm⟩
        next => exact absurd h (by simp)
      next => exact absurd h (by simp)
    next => exact absurd h (by simp)
  next => exact absurd h (by simp)

lemma applyStep_deliverOk {wid idx : Nat}
    (h : applyStep MR L (.deliverOk wid idx) s = some s1) :
    ∃ b it, (wid, idx) ∈ s.attemptsOut ∧ s.batch = some b ∧
      s.items.get? idx = some it ∧
      s1 = { s with items := s.items.set idx (successWriteItem s.now it),
                    batch := some { b with completed := b.completed + 1 },
                    attemptsOut := s.attemptsOut.erase (wid, idx) } := by
  simp only [applyStep] at h
  split at h
  next hmem =>
    split at h
    next b it hb hit =>
      exact ⟨b, it, hmem, hb, hit, (Option.some.inj h).symm⟩
    next => exact absurd h (by simp)
  next => exact absurd h (by simp)

lemma applyStep_deliverErr {wid idx : Nat} {k : MsgKind}
    (h : applyStep MR L (.deliverErr wid idx k) s = some s1) :
    ∃ b it, (wid, idx) ∈ s.attemptsOut ∧ s.batch = some b ∧
      s.items.get? idx = some it ∧
      s1 = { s with
        items := s.items.set idx (workerErrorHandler MR s.now k it b).1,
        batch := some (workerErrorHandler MR s.now k it b).2,
        attemptsOut := s.attemptsOut.erase (wid, idx) } := by
  simp only [applyStep] at h
  split at h
  next hmem =>
    split at h
    next b it hb hit =>
      exact ⟨b, it, hmem, hb, hit, (Option.some.inj h).symm⟩
    next => exact absurd h (by simp)
  next => exact absurd h (by simp)

lemma applyStep_wdSnap (h : applyStep MR L .wdSnap s = some s1) :
    s1 = { s with wdQueue := s.wdQueue ++ wdSnapshotEntries L s.now s.items } := by
  simp only [applyStep, Option.some.injEq] at h
  exact h.symm

lemma applyStep_wdWrite (h : applyStep MR L .wdWrite s = some s1) :
    ∃ idx rcSnap stSnap rest b it,
      s.wdQueue = (idx, rcSnap, stSnap) :: rest ∧ s.batch = some b ∧
      s.items.get? idx = some it ∧
      s1 = { s with
        items := s.items.set idx (wdWriteStep MR s.now rcSnap it b).1,
        batch := some (wdWriteStep MR s.now rcSnap it b).2,
        wdQueue := rest } := by
  simp only [applyStep] at h
  split at h
  next => exact absurd h (by simp)
  next idx rcSnap stSnap rest hq =>
    split at h
    next b it hb hit =>
      exact ⟨idx, rcSnap, stSnap, rest, b, it, hq, hb, hit,
        (Option.some.inj h).symm⟩
    next => exact absurd h (by simp)

lemma applyStep_checkDone (h : applyStep MR L .checkDone s = some s1) :
    ∃ b, s.batch = some b ∧
      s1 = { s with batch := some (checkCompletion b) } := by
  simp only [applyStep] at h
  split at h
  next b hb => exact ⟨b, hb, (Option.some.inj h).symm⟩
  next => exact absurd h (by simp)

lemma applyStep_control {a : CAction}
    (h : applyStep MR L (.control a) s = some s1) :
    ∃ b, s.batch = some b ∧
      s1 = { s with batch := some (controlBatch a b s.items).1,
                    items := (controlBatch a b s.items).2 } := by
  simp only [applyStep] at h
  split at h
  next b hb => exact ⟨b, hb, (Option.some.inj h).symm⟩
  next => exact absurd h (by simp)

end Inversion

section CountHelpers

lemma countStatus_set_eq {st0 : IStatus} {items : List ItemR} {i : Nat}
    {old new : ItemR} (hget : items.get? i = some old)
    (hold : old.status ≠ st0) (hnew : new.status ≠ st0) :
    countStatus st0 (items.set i new) = countStatus st0 items := by
  have h := countP_set (fun it => decide (it.status = st0)) items i new old hget
  simpa [countStatus, hold, hnew] using h

lemma countStatus_set_incr {st0 : IStatus} {items : List ItemR} {i : Nat}
    {old new : ItemR} (hget : items.get? i = some old)
    (hold : old.status ≠ st0) (hnew : new.status = st0) :
    countStatus st0 (items.set i new) = countStatus st0 items + 1 := by
  have h := countP_set (fun it => decide (it.status = st0)) items i new old hget
  simpa [countStatus, hold, hnew] using h

lemma countStatus_pos {st0 : IStatus} {items : List ItemR} {i : Nat}
    {it : ItemR} (hget : items.get? i = some it) (hst : it.status = st0) :
    0 < countStatus st0 items :=
  countP_pos_of_mem _ items it (mem_of_get items i it hget) (by simp [hst])

end CountHelpers

lemma counterInv_step {MR L : Nat} {st : Step} {s s1 : SysState}
    (hd : disciplined st s = true)
    (h : applyStep MR L st s = some s1) (hinv : CounterInv s) :
    CounterInv s1 := by
  cases st with
  | tick n =>
      obtain rfl := applyStep_tick h
      exact fun b hb => hinv b hb
  | claim wid =>
      obtain ⟨b, i, it, hb, hst, hoi, hit, rfl⟩ := applyStep_claim h
      obtain ⟨it2, hit2, hpend⟩ := oldestPending_pending hoi
      rw [hit] at hit2
      obtain rfl : it2 = it := Option.some.inj hit2.symm
      intro b2 hb2
      have hb2s : s.batch = some b2 := hb2
      rw [hb] at hb2s
      obtain rfl : b = b2 := Option.some.inj hb2s
      obtain ⟨h1, h2, h3, h4, _⟩ := hinv b hb
      refine ⟨?_, ?_, ?_, ?_, ?_⟩
      · rw [countStatus_set_eq hit (by simp [hpend]) (by simp [claimWriteItem])]
        exact h1
      · rw [countStatus_set_eq hit (by simp [hpend]) (by simp [claimWriteItem])]
        exact h2
      · rw [countStatus_set_eq hit (by simp [hpend]) (by simp [claimWriteItem])]
        exact h3
      · simpa using h4
      · intro hc
        rw [hst] at hc
        cases hc
  | deliverOk wid idx =>
      obtain ⟨b, it, hmem, hb, hit, rfl⟩ := applyStep_deliverOk h
      simp only [disciplined, hit, Bool.and_eq_true, decide_eq_true_eq] at hd
      obtain ⟨hrun, _⟩ := hd
      intro b2 hb2
      have hb2s : some { b with completed := b.completed + 1 } = some b2 := hb2
      obtain rfl : { b with completed := b.completed + 1 } = b2 :=
        Option.some.inj hb2s
      obtain ⟨h1, h2, h3, h4, h5⟩ := hinv b hb
      refine ⟨?_, ?_, ?_, ?_, ?_⟩
      · rw [countStatus_set_incr hit (by simp [hrun]) (by simp [successWriteItem])]
        simpa using h1
      · rw [countStatus_set_eq hit (by simp [hrun]) (by simp [successWriteItem])]
        exact h2
      · rw [countStatus_set_eq hit (by simp [hrun]) (by simp [successWriteItem])]
        exact h3
      · simpa using h4
      · intro hc
        have hpos := countStatus_pos hit hrun
        have := (h5 hc).2
        omega
  | deliverErr wid idx k =>
      obtain ⟨b, it, hmem, hb, hit, rfl⟩ := applyStep_deliverErr h
      simp only [disciplined, hit, Bool.and_eq_true, decide_eq_true_eq] at hd
      obtain ⟨hrun, _⟩ := hd
      obtain ⟨h1, h2, h3, h4, h5⟩ := hinv b hb
      intro b2 hb2
      by_cases hrc : it.retryCount < MR
      · have hb2s : some (workerErrorHandler MR s.now k it b).2 = some b2 := hb2
        rw [workerErrorHandler, if_pos hrc] at hb2s
        obtain rfl : b = b2 := Option.some.inj hb2s
        refine ⟨?_, ?_, ?_, ?_, ?_⟩
        · simp only [workerErrorHandler, if_pos hrc]
          rw [countStatus_set_eq hit (by simp [hrun]) (by simp [requeueWriteItem])]
          exact h1
        · simp only [workerErrorHandler, if_pos hrc]
          rw [countStatus_set_eq hit (by simp [hrun]) (by simp [requeueWriteItem])]
          exact h2
        · simp only [workerErrorHandler, if_pos hrc]
          rw [countStatus_set_eq hit (by simp [hrun]) (by simp [requeueWriteItem])]
          exact h3
        · simpa using h4
        · intro hc
          have hpos := countStatus_pos hit hrun
          have := (h5 hc).2
          omega
      · have hb2s : some (workerErrorHandler MR s.now k it b).2 = some b2 := hb2
        rw [workerErrorHandler, if_neg hrc] at hb2s
        obtain rfl : { b with failed := b.failed + 1 } = b2 :=
          Option.some.inj hb2s
        refine ⟨?_, ?_, ?_, ?_, ?_⟩
        · simp only [workerErrorHandler, if_neg hrc]
          rw [countStatus_set_eq hit (by simp [hrun]) (by simp [failWriteItem])]
          exact h1
        · simp only [workerErrorHandler, if_neg hrc]
          rw [countStatus_set_incr hit (by simp [hrun]) (by simp [failWriteItem])]
          simpa using h2
        · simp only [workerErrorHandler, if_neg hrc]
          rw [countStatus_set_eq hit (by simp [hrun]) (by simp [failWriteItem])]
          exact h3
        · simpa using h4
        · intro hc
          have hpos := countStatus_pos hit hrun
          have := (h5 hc).2
          omega
  | wdSnap =>
      obtain rfl := applyStep_wdSnap h
      exact fun b hb => hinv b hb
  | wdWrite =>
      obtain ⟨idx, rcSnap, stSnap, rest, b, it, hq, hb, hit, rfl⟩ :=
        applyStep_wdWrite h
      simp only [disciplined, hq, hit, Bool.and_eq_true, decide_eq_true_eq] at hd
      obtain ⟨⟨hrun, _⟩, _⟩ := hd
      obtain ⟨h1, h2, h3, h4, h5⟩ := hinv b hb
      intro b2 hb2
      by_cases hrc : rcSnap < MR
      · have hb2s : some (wdWriteStep MR s.now rcSnap it b).2 = some b2 := hb2
        rw [wdWriteStep, if_pos hrc] at hb2s
        obtain rfl : b = b2 := Option.some.inj hb2s
        refine ⟨?_, ?_, ?_, ?_, ?_⟩
        · simp only [wdWriteStep, if_pos hrc]
          rw [countStatus_set_eq hit (by simp [hrun]) (by simp [requeueWriteItem])]
          exact h1
        · simp only [wdWriteStep, if_pos hrc]
          rw [countStatus_set_eq hit (by simp [hrun]) (by simp [requeueWriteItem])]
          exact h2
        · simp only [wdWriteStep, if_pos hrc]
          rw [countStatus_set_eq hit (by simp [hrun]) (by simp [requeueWriteItem])]
          exact h3
        · simpa using h4
        · intro hc
          have hpos := countStatus_pos hit hrun
          have := (h5 hc).2
          omega
      · have hb2s : some (wdWriteStep MR s.now rcSnap it b).2 = some b2 := hb2
        rw [wdWriteStep, if_neg hrc] at hb2s
        obtain rfl : { b with failed := b.failed + 1 } = b2 :=
          Option.some.inj hb2s
        refine ⟨?_, ?_, ?_, ?_, ?_⟩
        · simp only [wdWriteStep, if_neg hrc]
          rw [countStatus_set_eq hit (by simp [hrun]) (by simp [wdFailWriteItem])]
          exact h1
        · simp only [wdWriteStep, if_neg hrc]
          rw [countStatus_set_incr hit (by simp [hrun]) (by simp [wdFailWriteItem])]
          simpa using h2
        · simp only [wdWriteStep, if_neg hrc]
          rw [countStatus_set_eq hit (by simp [hrun]) (by simp [wdFailWriteItem])]
          exact h3
        · simpa using h4
        · intro hc
          have hpos := countStatus_pos hit hrun
          have := (h5 hc).2
          omega
  | checkDone =>
      obtain ⟨b, hb, rfl⟩ := applyStep_checkDone h
      obtain ⟨h1, h2, h3, h4, h5⟩ := hinv b hb
      intro b2 hb2
      have hb2s : some (checkCompletion b) = some b2 := hb2
      by_cases hcond : b.status = BStatus.running ∧
          b.total ≤ b.completed + b.failed + b.cancelledCount + b.skippedDuplicates
      · rw [checkCompletion, if_pos hcond] at hb2s
        obtain rfl : { b with status := .complete } = b2 := Option.some.inj hb2s
        refine ⟨h1, h2, h3, by simpa using h4, ?_⟩
        intro _
        obtain ⟨hrun2, hle⟩ := hcond
        have hpart := countStatus_partition s.items
        constructor <;> (dsimp only; omega)
      · rw [checkCompletion, if_neg hcond] at hb2s
        obtain rfl : b = b2 := Option.some.inj hb2s
        exact ⟨h1, h2, h3, h4, h5⟩
  | control a =>
      obtain ⟨b, hb, rfl⟩ := applyStep_control h
      obtain ⟨h1, h2, h3, h4, h5⟩ := hinv b hb
      intro b2 hb2
      cases a with
      | pause =>
          by_cases hst : b.status = BStatus.running
          · have hb2s : some { b with status := BStatus.paused } = some b2 := by
              simpa [controlBatch, hst] using hb2
            obtain rfl : { b with status := BStatus.paused } = b2 :=
              Option.some.inj hb2s
            refine ⟨?_, ?_, ?_, ?_, ?_⟩ <;>
              simp only [controlBatch, if_pos hst]
            · exact h1
            · exact h2
            · exact h3
            · exact h4
            · intro hc; cases hc
          · have hb2s : some b = some b2 := by
              simpa [controlBatch, hst] using hb2
            obtain rfl : b = b2 := Option.some.inj hb2s
            refine ⟨?_, ?_, ?_, ?_, ?_⟩ <;>
              simp only [controlBatch, if_neg hst]
            · exact h1
            · exact h2
            · exact h3
            · exact h4
            · exact h5
      | resume =>
          by_cases hst : b.status = BStatus.paused
          · have hb2s : some { b with status := BStatus.running } = some b2 := by
              simpa [controlBatch, hst] using hb2
            obtain rfl : { b with status := BStatus.running } = b2 :=
              Option.some.inj hb2s
            refine ⟨?_, ?_, ?_, ?_, ?_⟩ <;>
              simp only [controlBatch, if_pos hst]
            · exact h1
            · exact h2
            · exact h3
            · exact h4
            · intro hc; cases hc
          · have hb2s : some b = some b2 := by
              simpa [controlBatch, hst] using hb2
            obtain rfl : b = b2 := Option.some.inj hb2s
            refine ⟨?_, ?_, ?_, ?_, ?_⟩ <;>
              simp only [controlBatch, if_neg hst]
            · exact h1
            · exact h2
            · exact h3
            · exact h4
            · exact h5
      | cancel =>
          by_cases hst : b.status = BStatus.running ∨ b.status = BStatus.paused
          · have hb2s : some { b with status := BStatus.cancelled, cancelledCount := b.cancelledCount + countStatus IStatus.pending s.items } = some b2 := by
              simpa [controlBatch, hst] using hb2
            obtain rfl := Option.some.inj hb2s
            have hmap := countStatus_cancelMap s.items
            refine ⟨?_, ?_, ?_, ?_, ?_⟩ <;>
              simp only [controlBatch, if_pos hst]
            · rw [hmap.2.2.1]; exact h1
            · rw [hmap.2.2.2.1]; exact h2
            · rw [hmap.1]; omega
            · simpa [List.length_map] using h4
            · intro hc; cases hc
          · have hb2s : some b = some b2 := by
              simpa [controlBatch, hst] using hb2
            obtain rfl : b = b2 := Option.some.inj hb2s
            refine ⟨?_, ?_, ?_, ?_, ?_⟩ <;>
              simp only [controlBatch, if_neg hst]
            · exact h1
            · exact h2
            · exact h3
            · exact h4
            · exact h5

section InitialState

lemma buildItems_fields (MR : Nat) : ∀ (hs seen : List Nat),
    (∀ it ∈ (buildItems MR hs seen).1,
        it.status = IStatus.pending ∧ it.retryCount = 0 ∧
        it.maxRetries = MR ∧ it.attempts = 0 ∧
        it.workerId = none ∧ it.startTime = none) ∧
    (buildItems MR hs seen).1.length + (buildItems MR hs seen).2 = hs.length
  | [], seen => by simp [buildItems]
  | h :: t, seen => by
      by_cases hm : h ∈ seen
      · have ih := buildItems_fields MR t seen
        simp only [buildItems, if_pos hm]
        refine ⟨ih.1, ?_⟩
        have := ih.2
        simp only [List.length_cons]
        omega
      · have ih := buildItems_fields MR t (h :: seen)
        simp only [buildItems, if_neg hm]
        refine ⟨?_, ?_⟩
        · intro it hit
          rcases List.mem_cons.mp hit with h1 | h1
          · subst h1; simp [mkItem]
          · exact ih.1 it h1
        · simp only [List.length_cons]
          have := ih.2
          omega

lemma countStatus_eq_zero {st0 : IStatus} {items : List ItemR}
    (h : ∀ it ∈ items, it.status ≠ st0) : countStatus st0 items = 0 := by
  rw [countStatus, List.countP_eq_zero]
  intro it hit
  simp [h it hit]

lemma counterInv_init (MR : Nat) (hs : List Nat) :
    CounterInv (createBatch MR hs) := by
  intro b hb
  simp only [createBatch, Option.some.injEq] at hb
  subst hb
  have hbf := buildItems_fields MR hs []
  have hz : ∀ st0, st0 ≠ IStatus.pending →
      countStatus st0 (buildItems MR hs []).1 = 0 := by
    intro st0 hne
    exact countStatus_eq_zero (fun it hit => by
      rw [(hbf.1 it hit).1]; exact fun hcontra => hne hcontra.symm)
  refine ⟨?_, ?_, ?_, ?_, ?_⟩ <;> simp only [createBatch]
  · exact (hz _ (by simp)).symm
  · exact (hz _ (by simp)).symm
  · exact (hz _ (by simp)).symm
  · have := hbf.2
    omega
  · intro hc; cases hc

lemma wfInv_init (MR : Nat) (hs : List Nat) :
    ∀ it ∈ (createBatch MR hs).items, it.status = IStatus.running →
      it.workerId ≠ none ∧ it.startTime ≠ none := by
  intro it hit hrun
  have hbf := (buildItems_fields MR hs []).1 it hit
  rw [hbf.1] at hrun
  cases hrun

end InitialState

section Absorbing

lemma applyStep_complete_absorbing {MR L : Nat} {st : Step} {s s1 : SysState}
    (h : applyStep MR L st s = some s1)
    (hc : batchStatus s = some BStatus.complete) :
    batchStatus s1 = some BStatus.complete := by
  cases st with
  | tick n => obtain rfl := applyStep_tick h; exact hc
  | claim wid =>
      obtain ⟨b, i, it, hb, hst, _, _, rfl⟩ := applyStep_claim h
      simp only [batchStatus, hb, Option.map_some', Option.some.injEq] at hc
      rw [hst] at hc
      cases hc
  | deliverOk wid idx =>
      obtain ⟨b, it, _, hb, _, rfl⟩ := applyStep_deliverOk h
      simp only [batchStatus, hb, Option.map_some', Option.some.injEq] at hc
      simpa [batchStatus] using hc
  | deliverErr wid idx k =>
      obtain ⟨b, it, _, hb, _, rfl⟩ := applyStep_deliverErr h
      simp only [batchStatus, hb, Option.map_some', Option.some.injEq] at hc
      by_cases hrc : it.retryCount < MR <;>
        simp [batchStatus, workerErrorHandler, hrc, requeueWriteItem,
          failWriteItem, hc]
  | wdSnap => obtain rfl := applyStep_wdSnap h; exact hc
  | wdWrite =>
      obtain ⟨idx, rcSnap, stSnap, rest, b, it, _, hb, _, rfl⟩ :=
        applyStep_wdWrite h
      simp only [batchStatus, hb, Option.map_some', Option.some.injEq] at hc
      by_cases hrc : rcSnap < MR <;>
        simp [batchStatus, wdWriteStep, hrc, hc]
  | checkDone =>
      obtain ⟨b, hb, rfl⟩ := applyStep_checkDone h
      simp only [batchStatus, hb, Option.map_some', Option.some.injEq] at hc
      have hnc : ¬(b.status = BStatus.running ∧
          b.total ≤ b.completed + b.failed + b.cancelledCount +
            b.skippedDuplicates) := by
        intro hcontra
        rw [hc] at hcontra
        cases hcontra.1
      simp [batchStatus, checkCompletion, hnc, hc]
  | control a =>
      obtain ⟨b, hb, rfl⟩ := applyStep_control h
      simp only [batchStatus, hb, Option.map_some', Option.some.injEq] at hc
      have hnr : b.status ≠ BStatus.running := by rw [hc]; intro hx; cases hx
      have hnp : b.status ≠ BStatus.paused := by rw [hc]; intro hx; cases hx
      cases a <;>
        simp [batchStatus, controlBatch, hnr, hnp, hc]

lemma runSteps_complete_persist {MR L : Nat} (t : List Step)
    (s s1 : SysState) (h : runSteps MR L t s = some s1)
    (hc : batchStatus s = some BStatus.complete) :
    batchStatus s1 = some BStatus.complete :=
  runSteps_inv MR L (fun x => batchStatus x = some BStatus.complete)
    (fun _ _ _ ha hp => applyStep_complete_absorbing ha hp) t s s1 h hc

end Absorbing

section ItemInvariants

lemma wfInv_step {MR L : Nat} {st : Step} {s s1 : SysState}
    (h : applyStep MR L st s = some s1) (hinv : WFInv s) : WFInv s1 := by
  cases st with
  | tick n => obtain rfl := applyStep_tick h; exact hinv
  | claim wid =>
      obtain ⟨b, i, it, _, _, _, hit, rfl⟩ := applyStep_claim h
      intro it2 hmem hrun
      rcases mem_of_mem_set _ _ _ _ hmem with hold | hnew
      · exact hinv it2 hold hrun
      · subst hnew; simp [claimWriteItem]
  | deliverOk wid idx =>
      obtain ⟨b, it, _, _, hit, rfl⟩ := applyStep_deliverOk h
      intro it2 hmem hrun
      rcases mem_of_mem_set _ _ _ _ hmem with hold | hnew
      · exact hinv it2 hold hrun
      · subst hnew; simp [successWriteItem] at hrun
  | deliverErr wid idx k =>
      obtain ⟨b, it, _, _, hit, rfl⟩ := applyStep_deliverErr h
      intro it2 hmem hrun
      rcases mem_of_mem_set _ _ _ _ hmem with hold | hnew
      · exact hinv it2 hold hrun
      · subst hnew
        by_cases hrc : it.retryCount < MR <;>
          simp [workerErrorHandler, hrc, requeueWriteItem,
            failWriteItem] at hrun
  | wdSnap => obtain rfl := applyStep_wdSnap h; exact hinv
  | wdWrite =>
      obtain ⟨idx, rcSnap, stSnap, rest, b, it, _, _, hit, rfl⟩ :=
        applyStep_wdWrite h
      intro it2 hmem hrun
      rcases mem_of_mem_set _ _ _ _ hmem with hold | hnew
      · exact hinv it2 hold hrun
      · subst hnew
        by_cases hrc : rcSnap < MR <;>
          simp [wdWriteStep, hrc, requeueWriteItem, wdFailWriteItem] at hrun
  | checkDone =>
      obtain ⟨b, _, rfl⟩ := applyStep_checkDone h
      exact hinv
  | control a =>
      obtain ⟨b, _, rfl⟩ := applyStep_control h
      intro it2 hmem hrun
      cases a with
      | pause =>
          have hmem2 : it2 ∈ s.items := by
            by_cases hst : b.status = BStatus.running <;>
              simpa [controlBatch, hst] using hmem
          exact hinv it2 hmem2 hrun
      | resume =>
          have hmem2 : it2 ∈ s.items := by
            by_cases hst : b.status = BStatus.paused <;>
              simpa [controlBatch, hst] using hmem
          exact hinv it2 hmem2 hrun
      | cancel =>
          by_cases hst : b.status = BStatus.running ∨ b.status = BStatus.paused
          · have hmem2 : it2 ∈ s.items.map cancelItem := by
              simpa [controlBatch, hst] using hmem
            rcases List.mem_map.mp hmem2 with ⟨it0, hit0, rfl⟩
            by_cases hp : it0.status = IStatus.pending
            · simp [cancelItem, hp] at hrun
            · rw [cancelItem, if_neg hp] at hrun ⊢
              exact hinv it0 hit0 hrun
          · have hmem2 : it2 ∈ s.items := by
              simpa [controlBatch, hst] using hmem
            exact hinv it2 hmem2 hrun

end ItemInvariants

section RetryInvariant

end RetryInvariant

/-- C1 counterexample.  The claim says the counter sum equals total
exactly when the batch is complete, and never exceeds total.  Both parts
fail on the code.  First trace: cancelling a fresh one-file batch gives
sum = total = 1 with status cancelled, never complete.  Second trace: a
worker claims the single item, the watchdog requeues it three times (the
stale worker stays alive), a stale error delivery then marks it failed at
retryCount 3 and a stale success delivery also marks it complete, so
completed + failed = 2 exceeds total = 1. -/
theorem c1_counterexample :
    ((runSteps 3 1 [Step.control CAction.cancel] (createBatch 3 [7])).bind
        (fun s => s.batch)).map (fun b => (sumOf b, b.total, b.status)) =
      some (1, 1, BStatus.cancelled) ∧
    BStatus.cancelled ≠ BStatus.complete ∧
    ((runSteps 3 1 [Step.claim 1, Step.tick 200, Step.wdSnap, Step.wdWrite,
        Step.claim 2, Step.tick 200, Step.wdSnap, Step.wdWrite,
        Step.claim 3, Step.tick 200, Step.wdSnap, Step.wdWrite,
        Step.claim 4, Step.deliverErr 1 0 MsgKind.other, Step.deliverOk 4 0]
        (createBatch 3 [7])).bind (fun s => s.batch)).map
      (fun b => decide (b.total < sumOf b)) = some true := by
  decide

/-- C1 as amended.  In executions where every worker outcome write lands
while its claim is still current and every watchdog write lands on an
item still running and unchanged since the snapshot (runStepsD), the
counter sum never exceeds total and equals total whenever the batch is
complete.  The converse fails (a cancelled batch also closes the sum).
Once written, complete persists along any execution, so no later step can
transition to complete a second time: after a step whose post-state is
complete, every subsequent state is already complete. -/
theorem c1_accounting :
    (∀ MR L hs t s b,
        runStepsD MR L t (createBatch MR hs) = some s → s.batch = some b →
        sumOf b ≤ b.total ∧
        (b.status = BStatus.complete → sumOf b = b.total)) ∧
    (∀ MR L t s s1, runSteps MR L t s = some s1 →
        batchStatus s = some BStatus.complete →
        batchStatus s1 = some BStatus.complete) ∧
    (∀ MR L st st2 t s s1 s2 s3,
        applyStep MR L st s = some s1 →
        batchStatus s1 = some BStatus.complete →
        runSteps MR L t s1 = some s2 →
        applyStep MR L st2 s2 = some s3 →
        batchStatus s2 = some BStatus.complete ∧
        batchStatus s3 = some BStatus.complete) := by
  refine ⟨?_, ?_, ?_⟩
  · intro MR L hs t s b hrun hb
    have hinv : CounterInv s := runStepsD_inv MR L CounterInv
      (fun st s0 s1 hd ha hp => counterInv_step hd ha hp) t _ s hrun
      (counterInv_init MR hs)
    obtain ⟨h1, h2, h3, h4, h5⟩ := hinv b hb
    have hpart := countStatus_partition s.items
    constructor
    · rw [sumOf]
      omega
    · intro hc
      obtain ⟨hp0, hr0⟩ := h5 hc
      rw [sumOf]
      omega
  · intro MR L t s s1 hrun hc
    exact runSteps_complete_persist t s s1 hrun hc
  · intro MR L st st2 t s s1 s2 s3 h1 hc1 hrun h2
    have hc2 : batchStatus s2 = some BStatus.complete :=
      runSteps_complete_persist t s1 s2 hrun hc1
    exact ⟨hc2, applyStep_complete_absorbing h2 hc2⟩

/-- C1 witness: the disciplined invariant applied to the freshly created
one-file batch. -/
theorem c1_accounting_witness :
    sumOf (BatchR.mk BStatus.running 1 0 0 0 0) ≤
      (BatchR.mk BStatus.running 1 0 0 0 0).total :=
  (c1_accounting.1 3 1 [7] [] (createBatch 3 [7])
    (BatchR.mk BStatus.running 1 0 0 0 0) rfl rfl).1

/-- C2 counterexample.  After claim followed by a successful analyzer
outcome, the item is complete yet still carries workerId = 1 and
startTime = 0, because the success write (processSingleResume lines
166-175) does not clear either field; so non-null worker data does not
imply status running. -/
theorem c2_counterexample :
    ((runSteps 3 1 [Step.claim 1, Step.deliverOk 1 0]
        (createBatch 3 [7])).map
      (fun s => s.items.map
        (fun it => (decide (it.status = IStatus.complete), it.workerId,
          it.startTime)))) = some [(true, some 1, some 0)] := by
  decide

/-- C2 as amended.  Whenever an item is running it carries a non-null
workerId and startTime (in every execution from batch creation), and the
requeue and worker failure writes do clear both fields; but the success
write and the watchdog failure write leave both fields untouched, so a
complete item or a watchdog-failed item keeps stale worker data and the
converse direction of the claim fails. -/
theorem c2_lease_fields :
    (∀ MR L hs t s, runSteps MR L t (createBatch MR hs) = some s →
        ∀ it ∈ s.items, it.status = IStatus.running →
          it.workerId ≠ none ∧ it.startTime ≠ none) ∧
    (∀ now code it, (requeueWriteItem now code it).workerId = none ∧
        (requeueWriteItem now code it).startTime = none) ∧
    (∀ now code it, (failWriteItem now code it).workerId = none ∧
        (failWriteItem now code it).startTime = none) ∧
    (∀ now it, (successWriteItem now it).status = IStatus.complete ∧
        (successWriteItem now it).workerId = it.workerId ∧
        (successWriteItem now it).startTime = it.startTime) ∧
    (∀ now it, (wdFailWriteItem now it).status = IStatus.failed ∧
        (wdFailWriteItem now it).workerId = it.workerId ∧
        (wdFailWriteItem now it).startTime = it.startTime) := by
  refine ⟨?_, ?_, ?_, ?_, ?_⟩
  · intro MR L hs t s hrun
    exact runSteps_inv MR L WFInv
      (fun st s0 s1 ha hp => wfInv_step ha hp) t _ s hrun (wfInv_init MR hs)
  · intro now code it
    exact ⟨rfl, rfl⟩
  · intro now code it
    exact ⟨rfl, rfl⟩
  · intro now it
    exact ⟨rfl, rfl, rfl⟩
  · intro now it
    exact ⟨rfl, rfl, rfl⟩

/-- C2 witness: the running-item direction applied to the item claimed by
worker 1 in a one-file batch. -/
theorem c2_lease_fields_witness :
    (claimWriteItem 1 0 (mkItem 3 7)).workerId ≠ none ∧
    (claimWriteItem 1 0 (mkItem 3 7)).startTime ≠ none :=
  c2_lease_fields.1 3 1 [7] [Step.claim 1] _ rfl
    (claimWriteItem 1 0 (mkItem 3 7)) (by decide) (by decide)

/-- C3 evaluated at the failing input.  The success write takes no worker
identity at all, so worker 1 finishing late still flips an item whose
lease meanwhile belongs to worker 2 to complete and changes the record;
the worker error handler likewise always writes pending or failed.  There
is no worker_id predicate on any terminal write in the source. -/
theorem c3_unconditional_write_eval :
    (claimWriteItem 2 5 (mkItem 3 7)).workerId = some 2 ∧
    (successWriteItem 9 (claimWriteItem 2 5 (mkItem 3 7))).status =
      IStatus.complete ∧
    successWriteItem 9 (claimWriteItem 2 5 (mkItem 3 7)) ≠
      claimWriteItem 2 5 (mkItem 3 7) ∧
    (∀ now it, (successWriteItem now it).status = IStatus.complete) ∧
    (∀ MR now k it b, (workerErrorHandler MR now k it b).1.status =
        IStatus.pending ∨ (workerErrorHandler MR now k it b).1.status =
        IStatus.failed) := by
  refine ⟨by decide, by decide, by decide, fun now it => rfl, ?_⟩
  intro MR now k it b
  by_cases hrc : it.retryCount < MR <;>
    simp [workerErrorHandler, hrc, requeueWriteItem, failWriteItem]

/-- C4 counterexample.  createBatch with files hashing to [7, 7, 8] (the
first two byte-identical) stores total = 3, not 2: the source sets
total = files.length at part_009 line 56 before the duplicate check runs;
the duplicate produces skippedDuplicates = 1 and only two item records. -/
theorem c4_counterexample :
    ((createBatch 3 [7, 7, 8]).batch).map
        (fun b => (b.total, b.skippedDuplicates)) = some (3, 1) ∧
    ¬ ((createBatch 3 [7, 7, 8]).batch).map (fun b => b.total) = some 2 ∧
    (createBatch 3 [7, 7, 8]).items.length = 2 := by
  decide

/-- C4 as amended.  total counts every submitted file, duplicates
included (total = files.length); intra-batch duplicates get no item slot
and are counted in skippedDuplicates, so total always equals the number
of item records plus skippedDuplicates and the skipped counter
contributes to completion closure. -/
theorem c4_total_counts (MR : Nat) (hs : List Nat) :
    ∀ b, (createBatch MR hs).batch = some b →
      b.total = hs.length ∧
      b.total = (createBatch MR hs).items.length + b.skippedDuplicates := by
  intro b hb
  simp only [createBatch, Option.some.injEq] at hb
  subst hb
  have hlen := (buildItems_fields MR hs []).2
  constructor
  · rfl
  · simp only [createBatch]
    omega

/-- C4 witness: the amended law applied to the duplicated file list. -/
theorem c4_total_counts_witness :
    (3 : Nat) = ([7, 7, 8] : List Nat).length ∧
    (3 : Nat) = (createBatch 3 [7, 7, 8]).items.length + 1 := by
  have h := c4_total_counts 3 [7, 7, 8] (BatchR.mk BStatus.running 3 0 0 0 1)
    rfl
  simpa using h

/-- C5 counterexample.  An analyzer error whose message carries neither a
rate-limit nor a server-busy marker (the permanent case of the claim)
hits a first-attempt item (retryCount = 0): the handler requeues it as
pending with retryCount 1 instead of failing it. -/
theorem c5_counterexample :
    (workerErrorHandler 3 9 MsgKind.other (claimWriteItem 1 5 (mkItem 3 7))
        (BatchR.mk BStatus.running 1 0 0 0 0)).1.status = IStatus.pending ∧
    (workerErrorHandler 3 9 MsgKind.other (claimWriteItem 1 5 (mkItem 3 7))
        (BatchR.mk BStatus.running 1 0 0 0 0)).1.retryCount = 1 ∧
    ¬ (workerErrorHandler 3 9 MsgKind.other (claimWriteItem 1 5 (mkItem 3 7))
        (BatchR.mk BStatus.running 1 0 0 0 0)).1.status = IStatus.failed := by
  decide

/-- C5 as amended.  The worker treats every analyzer error as retryable,
whatever its classification: below MAX_RETRIES the item returns to
pending with retryCount incremented and the batch untouched; at
MAX_RETRIES (after four attempts, so with retryCount = 3 in the shipped
configuration) it is failed with code permanent_failure and the batch
failed counter is incremented.  The message text only selects the stored
error code label. -/
theorem c5_error_retry_policy (MR now : Nat) (k : MsgKind) (it : ItemR)
    (b : BatchR) :
    (it.retryCount < MR →
      (workerErrorHandler MR now k it b).1.status = IStatus.pending ∧
      (workerErrorHandler MR now k it b).1.retryCount = it.retryCount + 1 ∧
      (workerErrorHandler MR now k it b).2 = b) ∧
    (MR ≤ it.retryCount →
      (workerErrorHandler MR now k it b).1.status = IStatus.failed ∧
      (workerErrorHandler MR now k it b).1.retryCount = it.retryCount ∧
      (workerErrorHandler MR now k it b).1.error =
        some ECode.permanentFailure ∧
      (workerErrorHandler MR now k it b).2.failed = b.failed + 1) := by
  constructor
  · intro hrc
    simp [workerErrorHandler, hrc, requeueWriteItem]
  · intro hrc
    have hn : ¬ it.retryCount < MR := by omega
    simp [workerErrorHandler, hn, failWriteItem]

/-- C5 witness: both branches at concrete inputs. -/
theorem c5_error_retry_policy_witness :
    (workerErrorHandler 3 9 MsgKind.other (mkItem 3 7)
        (BatchR.mk BStatus.running 1 0 0 0 0)).1.status = IStatus.pending ∧
    (workerErrorHandler 0 9 MsgKind.other (mkItem 0 7)
        (BatchR.mk BStatus.running 1 0 0 0 0)).1.status = IStatus.failed :=
  ⟨((c5_error_retry_policy 3 9 MsgKind.other (mkItem 3 7)
      (BatchR.mk BStatus.running 1 0 0 0 0)).1 (by decide)).1,
   ((c5_error_retry_policy 0 9 MsgKind.other (mkItem 0 7)
      (BatchR.mk BStatus.running 1 0 0 0 0)).2 (by decide)).1⟩

/-- C7.  controlBatch on an existing, authorized batch is the identity on
the batch record and on every item whenever the action is not allowed
from the current status (pause unless running, resume unless paused,
cancel from complete or cancelled): the source returns from the
transaction callback before any write, so the call reports success, no
exception is raised and nothing is mutated. -/
theorem c7_control_noop (a : CAction) (b : BatchR) (items : List ItemR)
    (h : controlDisallowed a b.status) :
    controlBatch a b items = (b, items) := by
  cases a with
  | pause =>
      have hne : b.status ≠ BStatus.running := h
      simp [controlBatch, hne]
  | resume =>
      have hne : b.status ≠ BStatus.paused := h
      simp [controlBatch, hne]
  | cancel =>
      have hne : ¬ (b.status = BStatus.running ∨ b.status = BStatus.paused) := by
        rcases h with hc | hc <;> rw [hc] <;> intro hor <;>
          rcases hor with hx | hx <;> cases hx
      simp [controlBatch, hne]

/-- C7 witness: cancelling a complete batch changes nothing. -/
theorem c7_control_noop_witness :
    controlBatch CAction.cancel (BatchR.mk BStatus.complete 1 1 0 0 0) [] =
      (BatchR.mk BStatus.complete 1 1 0 0 0, []) :=
  c7_control_noop CAction.cancel (BatchR.mk BStatus.complete 1 1 0 0 0) []
    (Or.inl rfl)

/-- C8 counterexample.  The watchdog query snapshots the single running
item, the late worker then completes it, and the pending watchdog write
(a plain update with no condition, watchdog lines 310-317) still fires:
it overwrites the terminal complete state back to pending, so the
watchdog does mutate an item that is no longer running at write time. -/
theorem c8_counterexample :
    ((runSteps 3 1 [Step.claim 1, Step.tick 200, Step.wdSnap,
        Step.deliverOk 1 0] (createBatch 3 [7])).map
      (fun s => s.items.map
        (fun it => decide (it.status = IStatus.complete)))) = some [true] ∧
    ((runSteps 3 1 [Step.claim 1, Step.tick 200, Step.wdSnap,
        Step.deliverOk 1 0, Step.wdWrite] (createBatch 3 [7])).map
      (fun s => s.items.map
        (fun it => (decide (it.status = IStatus.pending), it.hasResult,
          it.retryCount)))) = some [(true, true, 1)] := by
  decide

/-- C8 as amended.  The guard exists only at read time: every entry the
watchdog query captures belongs to an item that is running with an
expired startTime at query time, and on a state with no expired running
item the sweep captures nothing and is a no-op.  The write itself is
unconditional, so an item that reached a terminal state between query
and write is overwritten (see the counterexample). -/
theorem c8_watchdog_read_guard :
    (∀ L now items i rc st0,
        (i, rc, st0) ∈ wdSnapshotEntries L now items →
        ∃ it, items.get? i = some it ∧ it.status = IStatus.running ∧
          it.startTime = some st0 ∧ it.retryCount = rc ∧ st0 + L < now) ∧
    (∀ MR L s, (∀ it ∈ s.items, wdExpired L s.now it = false) →
        applyStep MR L Step.wdSnap s = some s) := by
  constructor
  · exact fun L now items i rc st0 h => wdSnapshotEntries_mem h
  · intro MR L s h
    have hnil : wdSnapshotEntries L s.now s.items = [] :=
      wdSnapshotEntries_nil h
    simp [applyStep, hnil]

/-- C8 witness: the steady-state no-op on a fresh batch (no running
item). -/
theorem c8_watchdog_read_guard_witness :
    applyStep 3 1 Step.wdSnap (createBatch 3 [7]) = some (createBatch 3 [7]) :=
  c8_watchdog_read_guard.2 3 1 (createBatch 3 [7]) (by decide)

/-- C9.  The retry wrapper in app/actions.ts: a first-attempt success
returns at once with no sleep; an error whose message lacks both 429 and
503 is rethrown immediately with no sleep; five retryable failures
exhaust the loop, raising the error of attempt 4 after sleeping
2000 * 2 ^ i milliseconds after each failed attempt i < 4; a success at
attempt 2 after two retryable failures returns with exactly the sleeps
2000 and 4000. -/
theorem c9_retry_wrapper :
    (∀ (α : Type) (fn : Nat → Except String α) (a : α),
        fn 0 = Except.ok a → retryRun fn = (Except.ok a, [])) ∧
    (∀ (α : Type) (fn : Nat → Except String α) (e : String),
        fn 0 = Except.error e → isRetryableMsg e = false →
        retryRun fn = (Except.error e, [])) ∧
    (∀ (α : Type) (fn : Nat → Except String α) (e0 e1 e2 e3 e4 : String),
        fn 0 = Except.error e0 → isRetryableMsg e0 = true →
        fn 1 = Except.error e1 → isRetryableMsg e1 = true →
        fn 2 = Except.error e2 → isRetryableMsg e2 = true →
        fn 3 = Except.error e3 → isRetryableMsg e3 = true →
        fn 4 = Except.error e4 → isRetryableMsg e4 = true →
        retryRun fn = (Except.error e4,
          [2000 * 2 ^ 0, 2000 * 2 ^ 1, 2000 * 2 ^ 2, 2000 * 2 ^ 3])) ∧
    (∀ (α : Type) (fn : Nat → Except String α) (e0 e1 : String) (a : α),
        fn 0 = Except.error e0 → isRetryableMsg e0 = true →
        fn 1 = Except.error e1 → isRetryableMsg e1 = true →
        fn 2 = Except.ok a →
        retryRun fn = (Except.ok a, [2000 * 2 ^ 0, 2000 * 2 ^ 1])) := by
  refine ⟨?_, ?_, ?_, ?_⟩
  · intro α fn a h0
    simp [retryRun, retryFrom, h0]
  · intro α fn e h0 hr
    simp [retryRun, retryFrom, h0, hr]
  · intro α fn e0 e1 e2 e3 e4 h0 r0 h1 r1 h2 r2 h3 r3 h4 r4
    simp [retryRun, retryFrom, h0, r0, h1, r1, h2, r2, h3, r3, h4, r4]
  · intro α fn e0 e1 a h0 r0 h1 r1 h2
    simp [retryRun, retryFrom, h0, r0, h1, r1, h2]

/-- C9 witness: the wrapper on a function failing with a 429 message on
attempts 0 and 1 and succeeding on attempt 2. -/
theorem c9_retry_wrapper_witness :
    retryRun (fun i => if i < 2 then Except.error "http 429"
      else Except.ok i) = (Except.ok 2, [2000 * 2 ^ 0, 2000 * 2 ^ 1]) :=
  c9_retry_wrapper.2.2.2 Nat
    (fun i => if i < 2 then Except.error "http 429" else Except.ok i)
    "http 429" "http 429" 2 rfl (by decide) rfl (by decide) rfl

/-- C10.  processSingleResume called with a batch id for which no batch
document exists returns normally and leaves the whole state unchanged:
the claim transaction returns early, no resume is claimed, and the final
completion recheck returns early as well. -/
theorem c10_missing_batch_noop (MR : Nat) (o : Outcome) (s : SysState)
    (h : s.batch = none) : processOnce MR o s = s := by
  simp [processOnce, h]

/-- C10 witness: the empty store. -/
theorem c10_missing_batch_noop_witness :
    processOnce 3 Outcome.ok (SysState.mk none [] 0 [] []) =
      SysState.mk none [] 0 [] [] :=
  c10_missing_batch_noop 3 Outcome.ok (SysState.mk none [] 0 [] []) rfl

end ResumeRank
